import Mathlib

/-!
Shallow embedding of the hash collision simulation repository
(`hash_functions.py`, `collision_analysis.py`) and proofs of the spec's
claims about it.

Modelling conventions:
* Python values that occur in this program are integers or strings
  (`Value` below).
* Python's `%` on integers is floored remainder, `Int.fmod`; division by
  zero raises `ZeroDivisionError`, modelled as `Except.error` with
  `PyError.zeroDivisionError`.
* Python's built-in `hash` is a language primitive, not repository code:
  it is modelled as an arbitrary parameter `ph : Value → Int`
  (deterministic within a run, as the spec states).
* Python list indexing supports negative indices (wrapping from the end)
  and raises `IndexError` out of range; modelled by `pyIdx`.
* `float` division `collisions / len(inputs)` is modelled exactly in `ℚ`.
* The `random` module is modelled by an explicit entropy stream threaded
  through the generators (`Rng` below).
-/

/-- Errors a run of the embedded program can surface.  The first three are
the Python exceptions the source can actually raise; the last two are the
spec's error taxonomy (`ConfigurationError`, `InvalidInputError`), present
so that claims phrased in terms of them can be stated. -/
inductive PyError where
  | zeroDivisionError
  | indexError
  | valueError
  | configurationError
  | invalidInputError
  deriving DecidableEq, Repr

/-- A Python value of this program: an integer or a string. -/
inductive Value where
  | int : Int → Value
  | str : String → Value
  deriving DecidableEq, Repr

instance {ε α : Type} [DecidableEq ε] [DecidableEq α] :
    DecidableEq (Except ε α) := fun x y =>
  match x, y with
  | .ok a, .ok b =>
    if h : a = b then isTrue (by rw [h]) else isFalse (by simp [h])
  | .error e, .error f =>
    if h : e = f then isTrue (by rw [h]) else isFalse (by simp [h])
  | .ok _, .error _ => isFalse (by simp)
  | .error _, .ok _ => isFalse (by simp)

/-- Python's `a % b` on integers: floored remainder, raising
`ZeroDivisionError` when `b = 0`. -/
def pymod (a b : Int) : Except PyError Int :=
  if b = 0 then .error .zeroDivisionError else .ok (Int.fmod a b)

/-- Python's `str(value)`: decimal representation for integers (with a
leading minus sign when negative), identity on strings. -/
def pyStr : Value → String
  | .int v => toString v
  | .str s => s

/-- `modulo_hash` from `hash_functions.py`: `value % table_size` for an
integer, `hash(value) % table_size` otherwise.  `ph` models Python's
built-in `hash`. -/
def modulo_hash (ph : Value → Int) (value : Value) (table_size : Int) :
    Except PyError Int :=
  match value with
  | .int v => pymod v table_size
  | .str _ => pymod (ph value) table_size

/-- The character loop of `polynomial_hash`:
`for ch in s: h = (h * base + ord(ch)) % table_size`. -/
def polyLoop (base table_size : Int) : List Char → Int → Except PyError Int
  | [], h => .ok h
  | c :: rest, h =>
    match pymod (h * base + (c.toNat : Int)) table_size with
    | .error e => .error e
    | .ok h2 => polyLoop base table_size rest h2

/-- `polynomial_hash` from `hash_functions.py`: `s = str(value)`, then the
rolling fold `h = (h * base + ord(ch)) % table_size` over the characters
of `s`, starting from `h = 0`. -/
def polynomial_hash (value : Value) (table_size : Int) (base : Int) :
    Except PyError Int :=
  polyLoop base table_size (pyStr value).data 0

/-- `built_in_hash` from `hash_functions.py`: `hash(value) % table_size`,
with `ph` modelling Python's built-in `hash`. -/
def built_in_hash (ph : Value → Int) (value : Value) (table_size : Int) :
    Except PyError Int :=
  pymod (ph value) table_size

/-- Floored remainder by a positive modulus is a non-negative remainder. -/
theorem fmod_bounds (a t : Int) (ht : 0 < t) :
    0 ≤ Int.fmod a t ∧ Int.fmod a t < t := by
  rw [Int.fmod_eq_emod a (le_of_lt ht)]
  exact ⟨Int.emod_nonneg a (ne_of_gt ht), Int.emod_lt_of_pos a ht⟩

/-- `pymod` with a nonzero modulus succeeds with the floored remainder. -/
theorem pymod_ok (a t : Int) (ht : t ≠ 0) :
    pymod a t = .ok (Int.fmod a t) := by
  simp [pymod, ht]

/-- The polynomial loop with a nonzero modulus never raises and computes a
plain fold of the step function. -/
theorem polyLoop_ok (base t : Int) (ht : t ≠ 0) :
    ∀ (s : List Char) (h : Int),
      polyLoop base t s h =
        .ok (s.foldl (fun h c => Int.fmod (h * base + (c.toNat : Int)) t) h)
  | [], h => rfl
  | c :: rest, h => by
    rw [polyLoop, pymod_ok _ _ ht, List.foldl_cons]
    exact polyLoop_ok base t ht rest _

/-- The polynomial fold keeps its accumulator inside `[0, t)` when it
starts there and `t > 0`. -/
theorem polyFold_range (base t : Int) (ht : 0 < t) :
    ∀ (s : List Char) (h : Int), 0 ≤ h → h < t →
      0 ≤ s.foldl (fun h c => Int.fmod (h * base + (c.toNat : Int)) t) h ∧
        s.foldl (fun h c => Int.fmod (h * base + (c.toNat : Int)) t) h < t
  | [], h, h0, h1 => ⟨h0, h1⟩
  | c :: rest, h, _, _ => by
    rw [List.foldl_cons]
    exact polyFold_range base t ht rest _ (fmod_bounds _ t ht).1
      (fmod_bounds _ t ht).2

/-- Modelled from the spec: the PolynomialRolling hash as the spec words
it — a left-to-right fold over the characters of the value's textual
representation, starting from accumulator `0`, updating
`h = (h * base + code_point ch) mod table_size` at every step (`mod`
being the non-negative remainder, i.e. `Int.fmod` for a positive
modulus). -/
def spec_poly_roll (base t : Int) (s : List Char) : Int :=
  s.foldl (fun h c => Int.fmod (h * base + (c.toNat : Int)) t) 0

/-- C7: for every table size `t > 0` and base, the PolynomialRolling hash
of a value equals the left-to-right fold over the characters of the
value's textual representation starting from `h = 0` with
`h = (h * base + code_point ch) mod t`, with modular reduction at every
step; in particular the empty string maps to bucket `0`. -/
theorem polynomial_hash_is_spec_fold (v : Value) (t base : Int)
    (ht : 0 < t) :
    polynomial_hash v t base = .ok (spec_poly_roll base t (pyStr v).data) ∧
      polynomial_hash (.str "") t base = .ok 0 :=
  ⟨polyLoop_ok base t (ne_of_gt ht) _ 0, rfl⟩

theorem polynomial_hash_is_spec_fold_witness :
    polynomial_hash (.str "ab") 10 31 =
        .ok (spec_poly_roll 31 10 ['a', 'b']) ∧
      polynomial_hash (.str "") 10 31 = .ok 0 :=
  polynomial_hash_is_spec_fold (.str "ab") 10 31 (by decide)

/-- C8: for every integer value `v` (including negative integers) and
every table size `t > 0`, the Modulo hash returns the non-negative
remainder `((v % t) + t) % t`: an integer `r` with `0 ≤ r < t` and
`r ≡ v (mod t)`. -/
theorem modulo_hash_nonneg_remainder (ph : Value → Int) (v t : Int)
    (ht : 0 < t) :
    modulo_hash ph (.int v) t = .ok ((v % t + t) % t) ∧
      0 ≤ (v % t + t) % t ∧ (v % t + t) % t < t ∧
      (v % t + t) % t % t = v % t := by
  have hne : t ≠ 0 := ne_of_gt ht
  have key : (v % t + t) % t = v % t := by
    rw [show v % t + t = v % t + t * 1 by ring, Int.add_mul_emod_self_left,
      Int.emod_emod_of_dvd v dvd_rfl]
  refine ⟨?_, ?_, Int.emod_lt_of_pos _ ht, ?_⟩
  · rw [show modulo_hash ph (.int v) t = pymod v t from rfl, pymod_ok v t hne,
      Int.fmod_eq_emod v (le_of_lt ht), key]
  · exact Int.emod_nonneg _ hne
  · rw [key, Int.emod_emod_of_dvd v dvd_rfl]

theorem modulo_hash_nonneg_remainder_witness :
    modulo_hash (fun _ => 0) (.int (-7)) 3 = .ok ((-7 % 3 + 3) % 3) ∧
      0 ≤ (-7 % 3 + 3) % 3 ∧ (-7 % 3 + 3) % 3 < 3 ∧
      (-7 % 3 + 3) % 3 % 3 = -7 % 3 :=
  modulo_hash_nonneg_remainder (fun _ => 0) (-7) 3 (by decide)

/-- C3: for every table size `t > 0` and every input value (integer or
string), each of the three hash functions — Modulo, PolynomialRolling
with any base, BuiltIn — returns a bucket index in `[0, t)`. -/
theorem hash_functions_in_range (ph : Value → Int) (v : Value)
    (t base : Int) (ht : 0 < t) :
    (∃ i, modulo_hash ph v t = .ok i ∧ 0 ≤ i ∧ i < t) ∧
      (∃ i, polynomial_hash v t base = .ok i ∧ 0 ≤ i ∧ i < t) ∧
      (∃ i, built_in_hash ph v t = .ok i ∧ 0 ≤ i ∧ i < t) := by
  have hne : t ≠ 0 := ne_of_gt ht
  refine ⟨?_, ?_, ?_⟩
  · cases v with
    | int a =>
      exact ⟨Int.fmod a t, pymod_ok a t hne, fmod_bounds a t ht⟩
    | str s =>
      exact ⟨Int.fmod (ph (.str s)) t, pymod_ok _ t hne, fmod_bounds _ t ht⟩
  · refine ⟨spec_poly_roll base t (pyStr v).data,
      polyLoop_ok base t hne _ 0, ?_⟩
    exact polyFold_range base t ht _ 0 le_rfl ht
  · exact ⟨Int.fmod (ph v) t, pymod_ok _ t hne, fmod_bounds _ t ht⟩

theorem hash_functions_in_range_witness :
    (∃ i, modulo_hash (fun _ => 41) (.int (-9)) 4 = .ok i ∧ 0 ≤ i ∧ i < 4) ∧
      (∃ i, polynomial_hash (.int (-9)) 4 31 = .ok i ∧ 0 ≤ i ∧ i < 4) ∧
      (∃ i, built_in_hash (fun _ => 41) (.int (-9)) 4 = .ok i ∧ 0 ≤ i ∧ i < 4) :=
  hash_functions_in_range (fun _ => 41) (.int (-9)) 4 31 (by decide)

/-- C5 counterexample: with `table_size = -3 ≤ 0` the Modulo hash does not
fail with a ConfigurationError — it succeeds, returning the floored
remainder `-1`. -/
theorem modulo_hash_negative_table_size_no_error :
    modulo_hash (fun _ => 0) (.int 5) (-3) = .ok (-1) ∧
      modulo_hash (fun _ => 0) (.int 5) (-3) ≠
        .error .configurationError := by
  constructor
  · rfl
  · decide

/-- C5 amended: the hash functions perform no validation of `table_size`.
With `table_size = 0` the modulo reduction raises `ZeroDivisionError`
(for Modulo, BuiltIn, and PolynomialRolling on a nonempty text); with
`table_size < 0` the Modulo hash of an integer succeeds anyway; and no
hash function ever reports a ConfigurationError. -/
theorem hash_functions_no_table_size_validation (ph : Value → Int)
    (v : Value) (a t base : Int) (ht : t < 0) :
    (∃ r, modulo_hash ph (.int a) t = .ok r) ∧
      modulo_hash ph (.int a) 0 = .error .zeroDivisionError ∧
      built_in_hash ph v 0 = .error .zeroDivisionError ∧
      polynomial_hash (.str "x") 0 base = .error .zeroDivisionError ∧
      modulo_hash ph v t ≠ .error .configurationError ∧
      polynomial_hash v t base ≠ .error .configurationError ∧
      built_in_hash ph v t ≠ .error .configurationError := by
  have hne : t ≠ 0 := ne_of_lt ht
  refine ⟨⟨Int.fmod a t, ?_⟩, rfl, rfl, rfl, ?_, ?_, ?_⟩
  · rw [show modulo_hash ph (.int a) t = pymod a t from rfl, pymod_ok a t hne]
  · cases v with
    | int b => rw [show modulo_hash ph (.int b) t = pymod b t from rfl,
        pymod_ok b t hne]; simp
    | str s => rw [show modulo_hash ph (.str s) t = pymod (ph (.str s)) t
        from rfl, pymod_ok _ t hne]; simp
  · rw [show polynomial_hash v t base = polyLoop base t (pyStr v).data 0
      from rfl, polyLoop_ok base t hne]; simp
  · rw [show built_in_hash ph v t = pymod (ph v) t from rfl,
      pymod_ok _ t hne]; simp

theorem hash_functions_no_table_size_validation_witness :
    (∃ r, modulo_hash (fun _ => 0) (.int 5) (-3) = .ok r) ∧
      modulo_hash (fun _ => 0) (.int 5) 0 = .error .zeroDivisionError ∧
      built_in_hash (fun _ => 0) (.str "ab") 0 = .error .zeroDivisionError ∧
      polynomial_hash (.str "x") 0 31 = .error .zeroDivisionError ∧
      modulo_hash (fun _ => 0) (.str "ab") (-3) ≠
        .error .configurationError ∧
      polynomial_hash (.str "ab") (-3) 31 ≠ .error .configurationError ∧
      built_in_hash (fun _ => 0) (.str "ab") (-3) ≠
        .error .configurationError :=
  hash_functions_no_table_size_validation (fun _ => 0) (.str "ab") 5 (-3) 31
    (by decide)

/-- Python list index resolution: a negative index counts from the end;
anything still out of `[0, len)` is an `IndexError` (`none`). -/
def pyIdx (len : Nat) (i : Int) : Option Nat :=
  let j := if i < 0 then i + len else i
  if 0 ≤ j ∧ j < (len : Int) then some j.toNat else none

/-- Python `l[i]` on a list of integers. -/
def pyListGet (l : List Nat) (i : Int) : Except PyError Nat :=
  match pyIdx l.length i with
  | some j => .ok (l.getD j 0)
  | none => .error .indexError

/-- Python `l[i] = v` on a list of integers. -/
def pyListSet (l : List Nat) (i : Int) (v : Nat) :
    Except PyError (List Nat) :=
  match pyIdx l.length i with
  | some j => .ok (l.set j v)
  | none => .error .indexError

/-- The dictionary returned by `run_collision_experiment`. -/
structure ExperimentResult where
  total_collisions : Nat
  collision_probability : ℚ
  bucket_counts : List Nat
  deriving DecidableEq, Repr

/-- A hash function as the runner consumes it:
`(value, table_size) -> bucket index`, possibly raising. -/
def HashFn : Type := Value → Int → Except PyError Int

/-- The `for value in inputs` loop of `run_collision_experiment`:
`idx = hash_func(value, table_size)`; if `bucket_counts[idx] > 0` then
`collisions += 1`; `bucket_counts[idx] += 1`. -/
def runLoop (hf : HashFn) (table_size : Int) :
    List Value → List Nat → Nat → Except PyError (List Nat × Nat)
  | [], bc, col => .ok (bc, col)
  | v :: rest, bc, col =>
    match hf v table_size with
    | .error e => .error e
    | .ok idx =>
      match pyListGet bc idx with
      | .error e => .error e
      | .ok cnt =>
        match pyListSet bc idx (cnt + 1) with
        | .error e => .error e
        | .ok bc2 =>
          runLoop hf table_size rest bc2 (if 0 < cnt then col + 1 else col)

/-- `run_collision_experiment` from `collision_analysis.py`:
`bucket_counts = [0] * table_size`, the counting loop, then the result
dictionary with `collision_probability = collisions / len(inputs)`
(raising `ZeroDivisionError` on empty `inputs`). -/
def run_collision_experiment (hf : HashFn) (table_size : Int)
    (inputs : List Value) : Except PyError ExperimentResult :=
  match runLoop hf table_size inputs (List.replicate table_size.toNat 0) 0 with
  | .error e => .error e
  | .ok (bc, col) =>
    if inputs.length = 0 then .error .zeroDivisionError
    else
      .ok { total_collisions := col,
            collision_probability := (col : ℚ) / (inputs.length : ℚ),
            bucket_counts := bc }

/-- Modelled from the spec: the occupied-before-insertion counting rule
over a list of bucket indices — processing indices in sequence order, an
index whose bucket count is positive at the moment of the check adds one
collision, and the bucket count is always incremented by one
regardless. -/
def spec_collision_fold : List Nat → List Nat → Nat → List Nat × Nat
  | [], counts, col => (counts, col)
  | i :: rest, counts, col =>
    spec_collision_fold rest (counts.set i (counts.getD i 0 + 1))
      (if 0 < counts.getD i 0 then col + 1 else col)

/-- Number of occupied buckets: entries of the count list that are
strictly positive. -/
def positiveBucketCount (l : List Nat) : Nat :=
  l.countP (fun c => decide (0 < c))

theorem getD_set_self (l : List Nat) (i : Nat) (v : Nat) (h : i < l.length) :
    (l.set i v).getD i 0 = v := by
  induction l generalizing i with
  | nil => simp at h
  | cons a rest ih =>
    cases i with
    | zero => rfl
    | succ j => exact ih j (by simpa using h)

theorem getD_set_ne (l : List Nat) (i j : Nat) (v : Nat) (hij : i ≠ j) :
    (l.set i v).getD j 0 = l.getD j 0 := by
  induction l generalizing i j with
  | nil => rfl
  | cons a rest ih =>
    cases i with
    | zero =>
      cases j with
      | zero => exact absurd rfl hij
      | succ k => rfl
    | succ i2 =>
      cases j with
      | zero => rfl
      | succ k => exact ih i2 k (by omega)

theorem sum_set_getD_succ (l : List Nat) (i : Nat) (h : i < l.length) :
    (l.set i (l.getD i 0 + 1)).sum = l.sum + 1 := by
  induction l generalizing i with
  | nil => simp at h
  | cons a rest ih =>
    cases i with
    | zero => simp [List.getD]; omega
    | succ j =>
      have := ih j (by simpa using h)
      simp only [List.set, List.getD_cons_succ, List.sum_cons, this]
      omega

theorem positiveBucketCount_set (l : List Nat) (i : Nat) (h : i < l.length) :
    positiveBucketCount (l.set i (l.getD i 0 + 1)) =
      if 0 < l.getD i 0 then positiveBucketCount l
      else positiveBucketCount l + 1 := by
  induction l generalizing i with
  | nil => simp at h
  | cons a rest ih =>
    cases i with
    | zero =>
      by_cases ha : 0 < a
      · simp [positiveBucketCount, List.countP_cons, List.getD, ha]
      · have ha0 : a = 0 := by omega
        simp [positiveBucketCount, List.countP_cons, List.getD, ha0]
    | succ j =>
      have := ih j (by simpa using h)
      by_cases hj : 0 < rest.getD j 0
      · simp only [List.getD_cons_succ, hj, if_true] at this ⊢
        simp [positiveBucketCount, List.countP_cons] at this ⊢
        omega
      · simp only [List.getD_cons_succ, hj, if_false] at this ⊢
        simp [positiveBucketCount, List.countP_cons] at this ⊢
        omega

theorem getD_replicate_zero (len j : Nat) :
    (List.replicate len (0 : Nat)).getD j 0 = 0 := by
  induction len generalizing j with
  | zero => rfl
  | succ n ih =>
    cases j with
    | zero => rfl
    | succ k => simp [List.replicate, ih k]

theorem pyIdx_natCast (len n : Nat) (h : n < len) :
    pyIdx len (n : Int) = some n := by
  have h1 : ¬ ((n : Int) < 0) := by omega
  have h2 : 0 ≤ (n : Int) ∧ (n : Int) < (len : Int) := by omega
  simp [pyIdx, h1, h2]

theorem pyListGet_ok (l : List Nat) (n : Nat) (h : n < l.length) :
    pyListGet l (n : Int) = .ok (l.getD n 0) := by
  simp [pyListGet, pyIdx_natCast l.length n h]

theorem pyListSet_ok (l : List Nat) (n : Nat) (v : Nat) (h : n < l.length) :
    pyListSet l (n : Int) v = .ok (l.set n v) := by
  simp [pyListSet, pyIdx_natCast l.length n h]

/-- On index-in-range hash functions the runner loop never raises and
computes exactly the spec's occupied-before-insertion fold over the
hashed indices. -/
theorem runLoop_eq_spec (hf : HashFn) (t : Int) (g : Value → Nat) :
    ∀ (inputs : List Value) (bc : List Nat) (col : Nat),
      (∀ v ∈ inputs, hf v t = .ok ((g v : Nat) : Int) ∧ g v < bc.length) →
      runLoop hf t inputs bc col =
        .ok (spec_collision_fold (inputs.map g) bc col)
  | [], bc, col, _ => rfl
  | v :: rest, bc, col, hg => by
    have hv := hg v (by simp)
    have hidx : pyIdx bc.length ((g v : Nat) : Int) = some (g v) :=
      pyIdx_natCast bc.length (g v) hv.2
    simp only [runLoop, hv.1, pyListGet_ok bc (g v) hv.2,
      pyListSet_ok bc (g v) _ hv.2, List.map_cons, spec_collision_fold]
    exact runLoop_eq_spec hf t g rest _ _
      (fun w hw => ⟨(hg w (by simp [hw])).1, by
        rw [List.length_set]; exact (hg w (by simp [hw])).2⟩)

/-- Full characterization of `run_collision_experiment` for an
index-in-range hash function: empty inputs raise `ZeroDivisionError`,
otherwise the result is the spec fold's counts and collision tally with
`collision_probability = collisions / len(inputs)`. -/
theorem run_collision_experiment_eq_spec (hf : HashFn) (t : Int)
    (g : Value → Nat) (inputs : List Value) (ht : 0 < t)
    (hg : ∀ v ∈ inputs, hf v t = .ok ((g v : Nat) : Int) ∧ (g v : Int) < t) :
    run_collision_experiment hf t inputs =
      if inputs.length = 0 then .error .zeroDivisionError
      else
        .ok { total_collisions :=
                (spec_collision_fold (inputs.map g)
                  (List.replicate t.toNat 0) 0).2,
              collision_probability :=
                (((spec_collision_fold (inputs.map g)
                  (List.replicate t.toNat 0) 0).2 : Nat) : ℚ) /
                  ((inputs.length : Nat) : ℚ),
              bucket_counts :=
                (spec_collision_fold (inputs.map g)
                  (List.replicate t.toNat 0) 0).1 } := by
  have hg2 : ∀ v ∈ inputs,
      hf v t = .ok ((g v : Nat) : Int) ∧
        g v < (List.replicate t.toNat (0 : Nat)).length := by
    intro v hv
    refine ⟨(hg v hv).1, ?_⟩
    rw [List.length_replicate]
    have := (hg v hv).2
    omega
  rw [run_collision_experiment,
    runLoop_eq_spec hf t g inputs (List.replicate t.toNat 0) 0 hg2]

theorem spec_fold_length :
    ∀ (is counts : List Nat) (col : Nat),
      (spec_collision_fold is counts col).1.length = counts.length
  | [], _, _ => rfl
  | i :: rest, counts, col => by
    rw [spec_collision_fold, spec_fold_length rest _ _, List.length_set]

theorem spec_fold_sum :
    ∀ (is counts : List Nat) (col : Nat), (∀ i ∈ is, i < counts.length) →
      (spec_collision_fold is counts col).1.sum = counts.sum + is.length
  | [], _, _, _ => by simp [spec_collision_fold]
  | i :: rest, counts, col, hin => by
    have hi : i < counts.length := hin i (by simp)
    have ih := spec_fold_sum rest (counts.set i (counts.getD i 0 + 1))
      (if 0 < counts.getD i 0 then col + 1 else col)
      (fun j hj => by rw [List.length_set]; exact hin j (by simp [hj]))
    rw [spec_collision_fold, ih, sum_set_getD_succ counts i hi]
    simp only [List.length_cons]
    omega

theorem spec_fold_collisions_eq :
    ∀ (is counts : List Nat) (col : Nat), (∀ i ∈ is, i < counts.length) →
      (spec_collision_fold is counts col).2 +
          positiveBucketCount (spec_collision_fold is counts col).1 =
        col + positiveBucketCount counts + is.length
  | [], _, _, _ => by simp [spec_collision_fold]
  | i :: rest, counts, col, hin => by
    have hi : i < counts.length := hin i (by simp)
    have ih := spec_fold_collisions_eq rest
      (counts.set i (counts.getD i 0 + 1))
      (if 0 < counts.getD i 0 then col + 1 else col)
      (fun j hj => by rw [List.length_set]; exact hin j (by simp [hj]))
    rw [spec_collision_fold, ih, positiveBucketCount_set counts i hi]
    by_cases hc : 0 < counts.getD i 0 <;> simp only [hc, if_true, if_false,
      List.length_cons] <;> omega

theorem spec_fold_nodup_no_collisions :
    ∀ (is counts : List Nat) (col : Nat), is.Nodup →
      (∀ i ∈ is, counts.getD i 0 = 0) →
      (spec_collision_fold is counts col).2 = col
  | [], _, _, _, _ => rfl
  | i :: rest, counts, col, hnd, hz => by
    have hzi : counts.getD i 0 = 0 := hz i (by simp)
    rw [spec_collision_fold, hzi]
    simp only [lt_irrefl, if_false]
    exact spec_fold_nodup_no_collisions rest _ col
      (List.Nodup.of_cons hnd)
      (fun j hj => by
        have hij : i ≠ j := by
          intro hcontra
          rw [hcontra] at hnd
          exact (List.nodup_cons.mp hnd).1 hj
        rw [getD_set_ne counts i j _ hij]
        exact hz j (by simp [hj]))

theorem positiveBucketCount_pos_of_sum_pos :
    ∀ (l : List Nat), 0 < l.sum → 0 < positiveBucketCount l
  | [], h => by simp at h
  | a :: rest, h => by
    by_cases ha : 0 < a
    · simp [positiveBucketCount, List.countP_cons, ha]
    · have ha0 : a = 0 := by omega
      have hr : 0 < rest.sum := by
        rw [List.sum_cons, ha0] at h
        omega
      have ih := positiveBucketCount_pos_of_sum_pos rest hr
      have hcast : positiveBucketCount (a :: rest) =
          positiveBucketCount rest := by
        simp [positiveBucketCount, List.countP_cons, ha0]
      rw [hcast]
      exact ih

theorem positiveBucketCount_replicate_zero (n : Nat) :
    positiveBucketCount (List.replicate n 0) = 0 := by
  induction n with
  | zero => rfl
  | succ k ih =>
    simp only [List.replicate_succ, positiveBucketCount,
      List.countP_cons] at ih ⊢
    simp [ih]

/-- C1: for every table size `t > 0`, every hash function returning
in-range indices, and every input sequence, the experiment runner counts
collisions by the occupied-before-insertion rule: processing inputs in
sequence order, an input whose bucket has a positive count at the moment
of the check adds one collision, and the bucket count is always
incremented regardless (empty inputs raise the division error). -/
theorem run_collision_experiment_occupied_before_insertion (hf : HashFn)
    (t : Int) (g : Value → Nat) (inputs : List Value) (ht : 0 < t)
    (hg : ∀ v ∈ inputs,
      hf v t = .ok ((g v : Nat) : Int) ∧ (g v : Int) < t) :
    run_collision_experiment hf t inputs =
      if inputs.length = 0 then .error .zeroDivisionError
      else
        .ok { total_collisions :=
                (spec_collision_fold (inputs.map g)
                  (List.replicate t.toNat 0) 0).2,
              collision_probability :=
                (((spec_collision_fold (inputs.map g)
                  (List.replicate t.toNat 0) 0).2 : Nat) : ℚ) /
                  ((inputs.length : Nat) : ℚ),
              bucket_counts :=
                (spec_collision_fold (inputs.map g)
                  (List.replicate t.toNat 0) 0).1 } :=
  run_collision_experiment_eq_spec hf t g inputs ht hg

theorem run_collision_experiment_occupied_before_insertion_witness :
    (run_collision_experiment (modulo_hash (fun _ => 0)) 10
        [.int 5, .int 5, .int 5]).toOption.map
      (fun r => (r.total_collisions, r.bucket_counts.getD 5 0)) =
      some (2, 3) := by
  rw [run_collision_experiment_occupied_before_insertion
    (modulo_hash (fun _ => 0)) 10 (fun _ => 5) [.int 5, .int 5, .int 5]
    (by decide) (by decide)]
  decide

/-- C2: for every table size `t > 0`, every hash function returning
indices in `[0, t)`, and every input sequence, an `ExperimentResult`
returned by the runner satisfies `sum(bucket_counts) = len(inputs)` and
`len(bucket_counts) = t`. -/
theorem experiment_result_sum_and_length (hf : HashFn) (t : Int)
    (g : Value → Nat) (inputs : List Value) (ht : 0 < t)
    (hg : ∀ v ∈ inputs,
      hf v t = .ok ((g v : Nat) : Int) ∧ (g v : Int) < t)
    (r : ExperimentResult)
    (hr : run_collision_experiment hf t inputs = .ok r) :
    r.bucket_counts.sum = inputs.length ∧
      (r.bucket_counts.length : Int) = t := by
  rw [run_collision_experiment_eq_spec hf t g inputs ht hg] at hr
  by_cases h0 : inputs.length = 0
  · rw [if_pos h0] at hr
    exact absurd hr (by simp)
  · rw [if_neg h0] at hr
    have hrr := (Except.ok.injEq _ _).mp hr
    have hin : ∀ i ∈ inputs.map g,
        i < (List.replicate t.toNat (0 : Nat)).length := by
      intro i hi
      obtain ⟨v, hv, hvi⟩ := List.mem_map.mp hi
      rw [List.length_replicate]
      have := (hg v hv).2
      omega
    constructor
    · rw [← hrr]
      simp only [spec_fold_sum (inputs.map g) _ 0 hin]
      simp
    · rw [← hrr]
      simp only [spec_fold_length, List.length_replicate]
      omega

theorem experiment_result_sum_and_length_witness :
    ([0, 2, 0, 0] : List Nat).sum = [Value.int 1, Value.int 1].length ∧
      ((([0, 2, 0, 0] : List Nat)).length : Int) = 4 :=
  experiment_result_sum_and_length (modulo_hash (fun _ => 0)) 4
    (fun v => match v with | .int i => i.toNat | .str _ => 0)
    [.int 1, .int 1] (by decide) (by decide)
    { total_collisions := 1,
      collision_probability := ((1 : Nat) : ℚ) / ((2 : Nat) : ℚ),
      bucket_counts := [0, 2, 0, 0] } rfl

/-- C10: for every table size `t > 0`, every in-range hash function, and
every input sequence, a returned `ExperimentResult` satisfies
`total_collisions = len(inputs) - #{buckets with positive count}`; hence
`total_collisions ≤ len(inputs) - 1` and the collision probability lies
in `[0, 1)`, strictly below `1`. -/
theorem total_collisions_eq_inputs_minus_occupied (hf : HashFn) (t : Int)
    (g : Value → Nat) (inputs : List Value) (ht : 0 < t)
    (hg : ∀ v ∈ inputs,
      hf v t = .ok ((g v : Nat) : Int) ∧ (g v : Int) < t)
    (r : ExperimentResult)
    (hr : run_collision_experiment hf t inputs = .ok r) :
    r.total_collisions =
        inputs.length - positiveBucketCount r.bucket_counts ∧
      r.total_collisions ≤ inputs.length - 1 ∧
      0 ≤ r.collision_probability ∧ r.collision_probability < 1 := by
  rw [run_collision_experiment_eq_spec hf t g inputs ht hg] at hr
  by_cases h0 : inputs.length = 0
  · rw [if_pos h0] at hr
    exact absurd hr (by simp)
  · rw [if_neg h0] at hr
    have hrr := (Except.ok.injEq _ _).mp hr
    have hin : ∀ i ∈ inputs.map g,
        i < (List.replicate t.toNat (0 : Nat)).length := by
      intro i hi
      obtain ⟨v, hv, hvi⟩ := List.mem_map.mp hi
      rw [List.length_replicate]
      have := (hg v hv).2
      omega
    have hsum := spec_fold_sum (inputs.map g) (List.replicate t.toNat 0) 0 hin
    have hcol := spec_fold_collisions_eq (inputs.map g)
      (List.replicate t.toNat 0) 0 hin
    rw [positiveBucketCount_replicate_zero] at hcol
    have hsum2 :
        (spec_collision_fold (inputs.map g)
          (List.replicate t.toNat 0) 0).1.sum = inputs.length := by
      rw [hsum]
      simp
    have hpos : 0 < positiveBucketCount
        (spec_collision_fold (inputs.map g)
          (List.replicate t.toNat 0) 0).1 := by
      apply positiveBucketCount_pos_of_sum_pos
      rw [hsum2]
      omega
    have hlenmap : (inputs.map g).length = inputs.length := by simp
    rw [hlenmap] at hcol
    have hcol2 : (spec_collision_fold (inputs.map g)
        (List.replicate t.toNat 0) 0).2 ≤ inputs.length - 1 := by omega
    have h1 : r.total_collisions = (spec_collision_fold (inputs.map g)
        (List.replicate t.toNat 0) 0).2 := by rw [← hrr]
    have h2 : r.bucket_counts = (spec_collision_fold (inputs.map g)
        (List.replicate t.toNat 0) 0).1 := by rw [← hrr]
    have h3 : r.collision_probability =
        (((spec_collision_fold (inputs.map g)
          (List.replicate t.toNat 0) 0).2 : Nat) : ℚ) /
          ((inputs.length : Nat) : ℚ) := by rw [← hrr]
    refine ⟨?_, ?_, ?_, ?_⟩
    · rw [h1, h2]
      omega
    · rw [h1]
      exact hcol2
    · rw [h3]
      positivity
    · rw [h3]
      have hlt : ((spec_collision_fold (inputs.map g)
          (List.replicate t.toNat 0) 0).2 : ℚ) < (inputs.length : ℚ) := by
        have : (spec_collision_fold (inputs.map g)
            (List.replicate t.toNat 0) 0).2 < inputs.length := by omega
        exact_mod_cast this
      rw [div_lt_one (by exact_mod_cast Nat.pos_of_ne_zero h0)]
      exact hlt

theorem total_collisions_eq_inputs_minus_occupied_witness :
    (1 : Nat) = [Value.int 0, Value.int 0, Value.int 1].length -
        positiveBucketCount [2, 1] ∧
      (1 : Nat) ≤ [Value.int 0, Value.int 0, Value.int 1].length - 1 ∧
      (0 : ℚ) ≤ ((1 : Nat) : ℚ) / ((3 : Nat) : ℚ) ∧
      ((1 : Nat) : ℚ) / ((3 : Nat) : ℚ) < 1 :=
  total_collisions_eq_inputs_minus_occupied (modulo_hash (fun _ => 0)) 2
    (fun v => match v with | .int i => i.toNat | .str _ => 0)
    [.int 0, .int 0, .int 1] (by decide) (by decide)
    { total_collisions := 1,
      collision_probability := ((1 : Nat) : ℚ) / ((3 : Nat) : ℚ),
      bucket_counts := [2, 1] } rfl

/-- C4 counterexample: on an empty input sequence the runner's error is
the raw `ZeroDivisionError` propagated from the probability division —
not an explicitly reported `InvalidInputError`. -/
theorem empty_inputs_error_is_zero_division_not_invalid_input :
    run_collision_experiment (modulo_hash (fun _ => 0)) 10 [] ≠
        .error .invalidInputError ∧
      run_collision_experiment (modulo_hash (fun _ => 0)) 10 [] =
        .error .zeroDivisionError := by
  exact ⟨by decide, rfl⟩

/-- C4 amended: for every hash function and table size, the runner on an
empty input sequence fails by propagating the `ZeroDivisionError` raised
by `collisions / len(inputs)` (there is no explicit guard or
`InvalidInputError` report), and in particular never silently returns a
result with `collision_probability = 0`. -/
theorem run_collision_experiment_empty_inputs_raises (hf : HashFn)
    (t : Int) :
    run_collision_experiment hf t [] = .error .zeroDivisionError :=
  rfl

/-- `generate_structured_sequence` from `collision_analysis.py`:
`list(range(n))`. -/
def generate_structured_sequence (n : Nat) : List Value :=
  (List.range n).map (fun k : Nat => Value.int (k : Int))

/-- C6 counterexample: at `n = 0` (allowed by the claim's `n ≥ 0`) with
`table_size = 1 ≥ n`, the experiment does not yield
`total_collisions = 0`; it raises `ZeroDivisionError` and returns no
result at all. -/
theorem structured_modulo_empty_sequence_no_result :
    run_collision_experiment (modulo_hash (fun _ => 0)) 1
        (generate_structured_sequence 0) = .error .zeroDivisionError ∧
      ¬ ∃ r, run_collision_experiment (modulo_hash (fun _ => 0)) 1
          (generate_structured_sequence 0) = .ok r ∧
          r.total_collisions = 0 := by
  refine ⟨rfl, ?_⟩
  rintro ⟨r, hr, -⟩
  rw [show run_collision_experiment (modulo_hash (fun _ => 0)) 1
    (generate_structured_sequence 0) = .error .zeroDivisionError
    from rfl] at hr
  simp at hr

/-- C6 amended: for every `n ≥ 1` and every table size `t ≥ n`, running
the experiment on the Structured sequence `0, 1, …, n-1` with the Modulo
hash yields a result with `total_collisions = 0`. -/
theorem structured_modulo_no_collisions (ph : Value → Int) (n : Nat)
    (t : Int) (hn : 1 ≤ n) (ht : (n : Int) ≤ t) :
    ∃ r, run_collision_experiment (modulo_hash ph) t
        (generate_structured_sequence n) = .ok r ∧
        r.total_collisions = 0 := by
  have ht0 : (0 : Int) < t := by omega
  have hg : ∀ v ∈ generate_structured_sequence n,
      modulo_hash ph v t =
          .ok (((match v with
                 | .int i => i.toNat
                 | .str _ => 0) : Nat) : Int) ∧
        ((match v with
          | .int i => i.toNat
          | .str _ => 0 : Nat) : Int) < t := by
    intro v hv
    obtain ⟨k, hk, hkv⟩ := List.mem_map.mp hv
    have hkn : k < n := List.mem_range.mp hk
    subst hkv
    have hfm : Int.fmod (k : Int) t = (k : Int) := by
      rw [Int.fmod_eq_emod (k : Int) (le_of_lt ht0)]
      exact Int.emod_eq_of_lt (by omega) (by omega)
    constructor
    · rw [show modulo_hash ph (.int (k : Int)) t = pymod (k : Int) t
        from rfl, pymod_ok (k : Int) t (ne_of_gt ht0), hfm]
      simp
    · simp only [Int.toNat_natCast]
      omega
  have hlen : (generate_structured_sequence n).length = n := by
    simp [generate_structured_sequence]
  have hmap : (generate_structured_sequence n).map
      (fun v => (match v with
                 | Value.int i => i.toNat
                 | Value.str _ => 0 : Nat)) = List.range n := by
    rw [generate_structured_sequence, List.map_map]
    have hcomp : ((fun v => (match v with
        | Value.int i => i.toNat
        | Value.str _ => 0 : Nat)) ∘ fun k : Nat => Value.int (k : Int)) =
        fun k : Nat => k := by
      funext k
      simp
    rw [hcomp]
    exact List.map_id _
  rw [run_collision_experiment_eq_spec (modulo_hash ph) t
    (fun v => (match v with
               | Value.int i => i.toNat
               | Value.str _ => 0 : Nat))
    (generate_structured_sequence n) ht0 hg, hlen, if_neg (by omega), hmap]
  refine ⟨_, rfl, ?_⟩
  exact spec_fold_nodup_no_collisions (List.range n) _ 0
    (List.nodup_range n) (fun j _ => getD_replicate_zero t.toNat j)

theorem structured_modulo_no_collisions_witness :
    ∃ r, run_collision_experiment (modulo_hash (fun _ => 0)) 5
        (generate_structured_sequence 3) = .ok r ∧
        r.total_collisions = 0 :=
  structured_modulo_no_collisions (fun _ => 0) 3 5 (by decide) (by decide)

/-- The process-wide random source, modelled as an abstract entropy
stream plus a position: each primitive draw consumes one stream value. -/
structure Rng where
  stream : Nat → Int
  pos : Nat

/-- Model of `random.randint(low, high)`: raises `ValueError` when
`low > high`, otherwise consumes one stream value, mapped into the closed
range `[low, high]`. -/
def randint (low high : Int) (ρ : Rng) : Except PyError (Int × Rng) :=
  if high < low then .error .valueError
  else .ok (low + Int.fmod (ρ.stream ρ.pos) (high - low + 1),
            { stream := ρ.stream, pos := ρ.pos + 1 })

/-- `generate_random_integers` from `collision_analysis.py`:
`[random.randint(low, high) for _ in range(n)]` (defaults
`low = 0`, `high = 1000000` at the call sites). -/
def generate_random_integers :
    Nat → Int → Int → Rng → Except PyError (List Value × Rng)
  | 0, _, _, ρ => .ok ([], ρ)
  | Nat.succ m, low, high, ρ =>
    match randint low high ρ with
    | .error e => .error e
    | .ok (v, ρ1) =>
      match generate_random_integers m low high ρ1 with
      | .error e => .error e
      | .ok (rest, ρ2) => .ok (.int v :: rest, ρ2)

/-- `string.ascii_letters + string.digits`: the 62-character population
used by `generate_random_strings`. -/
def pyAlphanum : List Char :=
  "abcdefghijklmnopqrstuvwxyzABCDEFGHIJKLMNOPQRSTUVWXYZ0123456789".data

/-- Model of one draw of `random.choices(characters)`: consumes one
stream value, selecting a character of the population. -/
def chooseAlphanum (ρ : Rng) : Char × Rng :=
  (pyAlphanum.getD (Int.fmod (ρ.stream ρ.pos) 62).toNat 'a',
   { stream := ρ.stream, pos := ρ.pos + 1 })

/-- `random.choices(characters, k=length)` joined into one string's
character list. -/
def randomChars : Nat → Rng → List Char × Rng
  | 0, ρ => ([], ρ)
  | Nat.succ m, ρ =>
    let p1 := chooseAlphanum ρ
    let p2 := randomChars m p1.2
    (p1.1 :: p2.1, p2.2)

/-- `generate_random_strings` from `collision_analysis.py`: `n` strings
of exactly `slen` alphanumeric characters each. -/
def generate_random_strings : Nat → Nat → Rng → List Value × Rng
  | 0, _, ρ => ([], ρ)
  | Nat.succ m, slen, ρ =>
    let p1 := randomChars slen ρ
    let p2 := generate_random_strings m slen p1.2
    (.str ⟨p1.1⟩ :: p2.1, p2.2)

/-- `get_inputs` from `collision_analysis.py`: dispatch on the
distribution name string, raising `ValueError` on an unknown one. -/
def get_inputs (distribution : String) (n : Nat) (low high : Int)
    (slen : Nat) (ρ : Rng) : Except PyError (List Value × Rng) :=
  if distribution = "random_integers" then
    generate_random_integers n low high ρ
  else if distribution = "random_strings" then
    .ok (generate_random_strings n slen ρ)
  else if distribution = "structured" then
    .ok (generate_structured_sequence n, ρ)
  else .error .valueError

/-- The inner `for input_size in input_sizes` loop of
`run_sweep_experiments`: regenerate inputs, run the experiment, store the
result under key `(table_size, input_size)`. -/
def run_sweep_inner (hf : HashFn) (t : Int) (dist : String)
    (low high : Int) (slen : Nat) :
    List Nat → Rng → Except PyError (List ((Int × Nat) × ExperimentResult) × Rng)
  | [], ρ => .ok ([], ρ)
  | n :: rest, ρ =>
    match get_inputs dist n low high slen ρ with
    | .error e => .error e
    | .ok (inputs, ρ1) =>
      match run_collision_experiment hf t inputs with
      | .error e => .error e
      | .ok r =>
        match run_sweep_inner hf t dist low high slen rest ρ1 with
        | .error e => .error e
        | .ok (tail, ρ2) => .ok (((t, n), r) :: tail, ρ2)

/-- `run_sweep_experiments` from `collision_analysis.py`: the nested
loops over `table_sizes` and `input_sizes`, the result dictionary
modelled as the association list of key/result pairs in insertion
order. -/
def run_sweep_experiments (hf : HashFn) :
    List Int → List Nat → String → Int → Int → Nat → Rng →
      Except PyError (List ((Int × Nat) × ExperimentResult) × Rng)
  | [], _, _, _, _, _, ρ => .ok ([], ρ)
  | t :: ts, ns, dist, low, high, slen, ρ =>
    match run_sweep_inner hf t dist low high slen ns ρ with
    | .error e => .error e
    | .ok (row, ρ1) =>
      match run_sweep_experiments hf ts ns dist low high slen ρ1 with
      | .error e => .error e
      | .ok (rest, ρ2) => .ok (row ++ rest, ρ2)

/-- Modelled from the spec: run one experiment per `(table_size,
input_size)` cell, generating a fresh input sequence for each cell (the
random state advances cell by cell, so inputs are not shared between
cells), and store each result under its key. -/
def spec_sweep_cells (hf : HashFn) (dist : String) (low high : Int)
    (slen : Nat) :
    List (Int × Nat) → Rng →
      Except PyError (List ((Int × Nat) × ExperimentResult) × Rng)
  | [], ρ => .ok ([], ρ)
  | (t, n) :: cells, ρ =>
    match get_inputs dist n low high slen ρ with
    | .error e => .error e
    | .ok (inputs, ρ1) =>
      match run_collision_experiment hf t inputs with
      | .error e => .error e
      | .ok r =>
        match spec_sweep_cells hf dist low high slen cells ρ1 with
        | .error e => .error e
        | .ok (tail, ρ2) => .ok (((t, n), r) :: tail, ρ2)

/-- The cross product `table_sizes × input_sizes` in nested-loop order. -/
def sweep_keys (ts : List Int) (ns : List Nat) : List (Int × Nat) :=
  ts.flatMap (fun t => ns.map (fun n => (t, n)))

theorem spec_sweep_cells_append (hf : HashFn) (dist : String)
    (low high : Int) (slen : Nat) :
    ∀ (l1 l2 : List (Int × Nat)) (ρ : Rng),
      spec_sweep_cells hf dist low high slen (l1 ++ l2) ρ =
        match spec_sweep_cells hf dist low high slen l1 ρ with
        | .error e => .error e
        | .ok (r1, ρ1) =>
          match spec_sweep_cells hf dist low high slen l2 ρ1 with
          | .error e => .error e
          | .ok (r2, ρ2) => .ok (r1 ++ r2, ρ2)
  | [], l2, ρ => by
    cases h : spec_sweep_cells hf dist low high slen l2 ρ with
    | error e => simp [spec_sweep_cells, h]
    | ok p => obtain ⟨r2, ρ2⟩ := p; simp [spec_sweep_cells, h]
  | (t, n) :: l1, l2, ρ => by
    rw [List.cons_append]
    simp only [spec_sweep_cells]
    cases hgi : get_inputs dist n low high slen ρ with
    | error e => rfl
    | ok p1 =>
      obtain ⟨inputs, ρ1⟩ := p1
      dsimp only
      cases hre : run_collision_experiment hf t inputs with
      | error e => rfl
      | ok r =>
        dsimp only
        rw [spec_sweep_cells_append hf dist low high slen l1 l2 ρ1]
        cases h1 : spec_sweep_cells hf dist low high slen l1 ρ1 with
        | error e => rfl
        | ok q1 =>
          obtain ⟨r1, ρA⟩ := q1
          dsimp only
          cases h2 : spec_sweep_cells hf dist low high slen l2 ρA with
          | error e => rfl
          | ok q2 => obtain ⟨r2, ρB⟩ := q2; rfl

theorem run_sweep_inner_eq_spec (hf : HashFn) (t : Int) (dist : String)
    (low high : Int) (slen : Nat) :
    ∀ (ns : List Nat) (ρ : Rng),
      run_sweep_inner hf t dist low high slen ns ρ =
        spec_sweep_cells hf dist low high slen
          (ns.map (fun n => (t, n))) ρ
  | [], ρ => rfl
  | n :: rest, ρ => by
    rw [List.map_cons]
    simp only [run_sweep_inner, spec_sweep_cells]
    cases hgi : get_inputs dist n low high slen ρ with
    | error e => rfl
    | ok p1 =>
      obtain ⟨inputs, ρ1⟩ := p1
      dsimp only
      cases hre : run_collision_experiment hf t inputs with
      | error e => rfl
      | ok r =>
        dsimp only
        rw [run_sweep_inner_eq_spec hf t dist low high slen rest ρ1]

/-- The sweep's nested loops are exactly the spec's per-cell runs over
the cross product `table_sizes × input_sizes`. -/
theorem run_sweep_experiments_eq_spec (hf : HashFn) (dist : String)
    (low high : Int) (slen : Nat) :
    ∀ (ts : List Int) (ns : List Nat) (ρ : Rng),
      run_sweep_experiments hf ts ns dist low high slen ρ =
        spec_sweep_cells hf dist low high slen (sweep_keys ts ns) ρ
  | [], ns, ρ => rfl
  | t :: ts, ns, ρ => by
    have hkeys : sweep_keys (t :: ts) ns =
        ns.map (fun n => (t, n)) ++ sweep_keys ts ns := by
      simp [sweep_keys]
    rw [hkeys, spec_sweep_cells_append hf dist low high slen _ _ ρ]
    simp only [run_sweep_experiments]
    rw [run_sweep_inner_eq_spec hf t dist low high slen ns ρ]
    cases h1 : spec_sweep_cells hf dist low high slen
        (ns.map (fun n => (t, n))) ρ with
    | error e => rfl
    | ok p1 =>
      obtain ⟨row, ρ1⟩ := p1
      dsimp only
      rw [run_sweep_experiments_eq_spec hf dist low high slen ts ns ρ1]

theorem spec_sweep_cells_keys (hf : HashFn) (dist : String)
    (low high : Int) (slen : Nat) :
    ∀ (cells : List (Int × Nat)) (ρ : Rng),
      (spec_sweep_cells hf dist low high slen cells ρ).toOption.map
          (fun out => out.1.map Prod.fst) =
        (spec_sweep_cells hf dist low high slen cells ρ).toOption.map
          (fun _ => cells)
  | [], ρ => rfl
  | (t, n) :: cells, ρ => by
    simp only [spec_sweep_cells]
    cases hgi : get_inputs dist n low high slen ρ with
    | error e => rfl
    | ok p1 =>
      obtain ⟨inputs, ρ1⟩ := p1
      dsimp only
      cases hre : run_collision_experiment hf t inputs with
      | error e => rfl
      | ok r =>
        dsimp only
        have ih := spec_sweep_cells_keys hf dist low high slen cells ρ1
        cases h1 : spec_sweep_cells hf dist low high slen cells ρ1 with
        | error e => rfl
        | ok q1 =>
          obtain ⟨tail, ρ2⟩ := q1
          rw [h1] at ih
          dsimp only [Except.toOption, Option.map] at ih ⊢
          injection ih with ih2
          rw [List.map_cons, ih2]

/-- C9: for every hash function, list of table sizes, list of input
sizes, and distribution, the sweep runs one experiment per pair of the
cross product `table_sizes × input_sizes`, generating a fresh input
sequence per cell (the random state is threaded cell by cell, so inputs
are not shared between cells), and stores each result under the key
`(table_size, input_size)`; concretely, two cells with the same input
size but different table sizes can receive different random draws. -/
theorem run_sweep_experiments_cross_product (hf : HashFn) (ts : List Int)
    (ns : List Nat) (dist : String) (low high : Int) (slen : Nat)
    (ρ : Rng) :
    run_sweep_experiments hf ts ns dist low high slen ρ =
        spec_sweep_cells hf dist low high slen (sweep_keys ts ns) ρ ∧
      (run_sweep_experiments hf ts ns dist low high slen ρ).toOption.map
          (fun out => out.1.map Prod.fst) =
        (run_sweep_experiments hf ts ns dist low high slen ρ).toOption.map
          (fun _ => sweep_keys ts ns) ∧
      (run_sweep_experiments (modulo_hash (fun _ => 0)) [2, 3] [1]
          "random_integers" 0 1000000 10
          { stream := fun k => (k : Int), pos := 0 }).toOption.map
          (fun out => out.1.map (fun kv => (kv.1, kv.2.bucket_counts))) =
        some [((2, 1), [1, 0]), ((3, 1), [0, 1, 0])] := by
  refine ⟨run_sweep_experiments_eq_spec hf dist low high slen ts ns ρ,
    ?_, ?_⟩
  · rw [run_sweep_experiments_eq_spec hf dist low high slen ts ns ρ]
    exact spec_sweep_cells_keys hf dist low high slen (sweep_keys ts ns) ρ
  · decide
